import Mathlib

/-!
Verification of the text-layout and cursor-arithmetic core of `peng_ui`
(`peng_ui/elements/text_field.py`).

Python strings are modelled as `List Char`, a `Line` by its list of
paragraphs (`List (List Char)`), the document (`TextField.text`) as a list of
lines, and Python `int` values by `Int` (indices that are provably
non-negative in the modelled states are `Nat`).  The pygame font is an
external collaborator; its `font.size(text)[0]` width measurement is a
parameter `measure : List Char → Int`.
-/

set_option autoImplicit false

namespace PengUi

/-- Paragraphs and raw line text: Python `str` as a list of characters. -/
abbrev PStr := List Char

/-- A `Line`, identified with its `paragraphs` field (`List[str]`). -/
abbrev LineP := List PStr

/-- The document `TextField.text`: a list of lines. -/
abbrev Doc := List LineP

/-- Python `' '.join(parts)`. -/
def joinSpaces : List PStr → PStr
  | [] => []
  | [p] => p
  | p :: ps => p ++ ' ' :: joinSpaces ps

/-- Python `s.split(' ')`: split at every space, keeping empty pieces. -/
def splitOnSpace : PStr → List PStr
  | [] => [[]]
  | c :: cs =>
    if c = ' ' then [] :: splitOnSpace cs
    else
      match splitOnSpace cs with
      | [] => [[c]]
      | w :: ws => (c :: w) :: ws

/-- The greedy word-placing loop of `Line.auto_wrap`: `acc` is
`new_paragraphs`, `cur` is `current_line`, and the list argument is the
remaining words.  Mirrors the `for word in words` loop body and the final
`if current_line: new_paragraphs.append(current_line)`. -/
def greedy (measure : PStr → Int) (maxWidth : Int) (acc : List PStr) (cur : PStr) :
    List PStr → List PStr
  | [] => if cur = [] then acc else acc ++ [cur]
  | w :: ws =>
    let test := if cur = [] then w else cur ++ ' ' :: w
    if measure test ≤ maxWidth then greedy measure maxWidth acc test ws
    else if cur = [] then greedy measure maxWidth (acc ++ [w]) [] ws
    else greedy measure maxWidth (acc ++ [cur]) w ws

/-- The word-level wrapper: the greedy loop started from an empty buffer. -/
def wrap_words (measure : PStr → Int) (maxWidth : Int) (words : List PStr) : List PStr :=
  greedy measure maxWidth [] [] words

/-- `Line.auto_wrap`: re-join the paragraphs with single spaces, re-split
into words, and run the greedy wrapper. -/
def auto_wrap (measure : PStr → Int) (maxWidth : Int) (paragraphs : LineP) : LineP :=
  wrap_words measure maxWidth (splitOnSpace (joinSpaces paragraphs))

/-- `Line.get_line_char_index`: flattened offset of `(paragraph_index,
char_index)`, counting each earlier paragraph as `len(p) + 1` characters. -/
def get_line_char_index (paragraphs : LineP) (paragraphIndex charIndex : Nat) : Nat :=
  (((paragraphs.take paragraphIndex).map (fun p => p.length + 1)).sum) + charIndex

/-- The scanning loop of `Line.get_paragraph_char_index`; `n` is the length
of the full paragraph list (used by the fallback `len(self.paragraphs) - 1`),
`i` and `cum` are the loop counters.  On an EMPTY paragraph list the source
returns `(-1, 0)`; this `Nat` version truncates that to `(0, 0)` and is
exact exactly when the paragraph list is non-empty (proved below as
`gpciAuxZ_agrees` against the Python-int version `gpciAuxZ`). -/
def gpciAux (n lineCharIndex : Nat) : Nat → Nat → LineP → Nat × Nat
  | _, _, [] => (n - 1, 0)
  | i, cum, p :: ps =>
    if lineCharIndex < cum + (p.length + 1) then (i, lineCharIndex - cum)
    else gpciAux n lineCharIndex (i + 1) (cum + (p.length + 1)) ps

/-- `Line.get_paragraph_char_index`: inverse of the flattened offset. -/
def get_paragraph_char_index (paragraphs : LineP) (lineCharIndex : Nat) : Nat × Nat :=
  gpciAux paragraphs.length lineCharIndex 0 0 paragraphs

/-- `Line.split`: split the paragraph list at `(paragraph_index,
split_index)` and re-join each side with the empty separator (`''.join`),
returning the raw texts of the two resulting `Line` objects. -/
def line_split (paragraphs : LineP) (paragraphIndex splitIndex : Nat) : PStr × PStr :=
  let leftParagraphs := paragraphs.take paragraphIndex
  let rightParagraphs := paragraphs.drop (paragraphIndex + 1)
  let middleParagraph := paragraphs.getD paragraphIndex []
  let leftPart := middleParagraph.take splitIndex
  let rightPart := middleParagraph.drop splitIndex
  ((leftParagraphs ++ [leftPart]).flatten, (rightPart :: rightParagraphs).flatten)

/-- The cursor triple `(line_index, paragraph_index, char_index)`.  The
fields are `Nat`: in the structurally valid states covered by the theorems
below every stored index is non-negative. -/
structure Cursor where
  line_index : Nat
  paragraph_index : Nat
  char_index : Nat
deriving DecidableEq, Repr

/-- Look up a line of the document (`self.text[i]`); in-range in every
modelled state. -/
def getLine (text : Doc) (i : Nat) : LineP := text.getD i []

/-- `TextField._get_paragraph` for a `(line_index, paragraph_index)` pair. -/
def getPara (text : Doc) (lineIndex paragraphIndex : Nat) : PStr :=
  (text.getD lineIndex []).getD paragraphIndex []

/-- Python `s.find(c, start)`: first index `≥ start` holding `c`, else -1. -/
def pyFind (s : PStr) (c : Char) (start : Nat) : Int :=
  match (s.drop start).findIdx? (fun x => x = c) with
  | some i => ((start + i : Nat) : Int)
  | none => -1

/-- Python `s.rfind(c, 0, stop)`: largest index `< stop` holding `c`, else
-1 (`stop` is clamped to the length, as in Python). -/
def pyRfind (s : PStr) (c : Char) (stop : Nat) : Int :=
  match (s.take stop).reverse.findIdx? (fun x => x = c) with
  | some i => (((s.take stop).length - 1 - i : Nat) : Int)
  | none => -1

/-- `TextField._next_char_index`.  The `direction = 0` case raises
`ValueError` in the source and is unreachable from the modelled callers; it
is mapped to 0 here. -/
def next_char_index (paragraph : PStr) (charIndex : Nat) (direction : Int)
    (jumpWords : Bool) : Int :=
  if ¬ jumpWords then (charIndex : Int) + direction
  else if direction > 0 then
    if charIndex = paragraph.length then (paragraph.length : Int) + 1
    else
      let newIndex := pyFind paragraph ' ' (charIndex + 1)
      if newIndex = -1 then (paragraph.length : Int) else newIndex
  else if direction < 0 then
    if charIndex = 0 then -1
    else
      let newIndex := pyRfind paragraph ' ' charIndex
      if newIndex = -1 then 0 else newIndex
  else 0

/-- `TextField._move_cursor`: returns the cursor value after the move (the
source mutates the given cursor in place). -/
def move_cursor (text : Doc) (cursor : Cursor) (direction : Int) (jumpWords : Bool) :
    Cursor :=
  if ¬ jumpWords then
    let para := getPara text cursor.line_index cursor.paragraph_index
    let newCharIndex : Int := next_char_index para cursor.char_index direction jumpWords
    if newCharIndex < 0 ∨ newCharIndex > (para.length : Int) then
      let wrapBack := newCharIndex < 0
      let wrapForward := newCharIndex > (para.length : Int)
      let newParagraphIndex : Int := (cursor.paragraph_index : Int) + direction
      let currentCount : Int := ((getLine text cursor.line_index).length : Int)
      if newParagraphIndex < 0 ∨ newParagraphIndex ≥ currentCount then
        let newLineIndex : Int := (cursor.line_index : Int) + direction
        if newLineIndex < 0 ∨ newLineIndex ≥ (text.length : Int) then cursor
        else
          let npi1 : Int :=
            if newParagraphIndex < 0 then ((getLine text newLineIndex.toNat).length : Int) - 1
            else newParagraphIndex
          let npi2 : Int := if npi1 ≥ currentCount then 0 else npi1
          let nci : Int :=
            if wrapForward then 0
            else if wrapBack then ((getPara text newLineIndex.toNat npi2.toNat).length : Int)
            else newCharIndex
          ⟨newLineIndex.toNat, npi2.toNat, nci.toNat⟩
      else
        let nci : Int :=
          if wrapForward then 0
          else if wrapBack then
            ((getPara text cursor.line_index newParagraphIndex.toNat).length : Int)
          else newCharIndex
        ⟨cursor.line_index, newParagraphIndex.toNat, nci.toNat⟩
    else ⟨cursor.line_index, cursor.paragraph_index, newCharIndex.toNat⟩
  else cursor

/-- `TextField._create_newline`: replace the cursor line by its two split
halves (`self.text[i] = left; self.text.insert(i + 1, right)`).  The source
leaves `self.cursor` untouched; the returned pair makes that explicit. -/
def create_newline (text : Doc) (cursor : Cursor) : Doc × Cursor :=
  let origLine := getLine text cursor.line_index
  let lr := line_split origLine cursor.paragraph_index cursor.char_index
  (text.take cursor.line_index ++ [[lr.1]] ++ [[lr.2]] ++ text.drop (cursor.line_index + 1),
    cursor)

/-- `Line.auto_wrap_and_norm_cursor`: flatten the cursor offset with the
pre-wrap layout, wrap, then unflatten with the post-wrap layout. -/
def auto_wrap_and_norm_cursor (measure : PStr → Int) (maxWidth : Int)
    (paragraphs : LineP) (cursor : Cursor) : LineP × Cursor :=
  let lineCharIndex := get_line_char_index paragraphs cursor.paragraph_index cursor.char_index
  let wrapped := auto_wrap measure maxWidth paragraphs
  let pc := get_paragraph_char_index wrapped lineCharIndex
  (wrapped, ⟨cursor.line_index, pc.1, pc.2⟩)

/-- The indexed loop of `TextField._wrap_text`: every line is wrapped; the
line at `cursor.line_index` additionally renormalizes the cursor. -/
def wrap_text_go (measure : PStr → Int) (maxWidth : Int) (cursorLine : Nat) :
    Nat → Doc → Cursor → Doc × Cursor
  | _, [], c => ([], c)
  | i, l :: ls, c =>
    if i = cursorLine then
      let lc := auto_wrap_and_norm_cursor measure maxWidth l c
      let rest := wrap_text_go measure maxWidth cursorLine (i + 1) ls lc.2
      (lc.1 :: rest.1, rest.2)
    else
      let rest := wrap_text_go measure maxWidth cursorLine (i + 1) ls c
      (auto_wrap measure maxWidth l :: rest.1, rest.2)

/-- `TextField._wrap_text`. -/
def wrap_text (measure : PStr → Int) (maxWidth : Int) (text : Doc) (cursor : Cursor) :
    Doc × Cursor :=
  wrap_text_go measure maxWidth cursor.line_index 0 text cursor

/-- `TextField._get_view_line_pos`: paragraph counts of all preceding lines
plus the cursor's paragraph index. -/
def get_view_line_pos (text : Doc) (cursor : Cursor) : Nat :=
  ((text.take cursor.line_index).map List.length).sum + cursor.paragraph_index

/-- `TextField._get_num_paragraphs`. -/
def get_num_paragraphs (text : Doc) : Nat := (text.map List.length).sum

/-- `max(1, int(visible_height / line_height))`.  For the Python states
(`line_height > 0`) truncating division of the possibly negative
`visible_height` and this `Nat` computation agree after the `max` with 1. -/
def visibleLines (rectHeight padding lineHeight : Nat) : Nat :=
  max 1 ((rectHeight - 2 * padding) / lineHeight)

/-- `TextField._clamp_scroll`. -/
def clamp_scroll (text : Doc) (rectHeight padding lineHeight scrollOffset : Nat) : Nat :=
  let vis := visibleLines rectHeight padding lineHeight
  let maxScroll := get_num_paragraphs text - vis
  max 0 (min scrollOffset maxScroll)

/-- `TextField._update_scroll`: scroll down/up so the cursor row is inside
the window, then clamp. -/
def update_scroll (text : Doc) (cursor : Cursor)
    (rectHeight padding lineHeight scrollOffset : Nat) : Nat :=
  let vis := visibleLines rectHeight padding lineHeight
  let cursorLine := get_view_line_pos text cursor
  let so1 := if cursorLine ≥ scrollOffset + vis then cursorLine - vis + 1 else scrollOffset
  let so2 := if cursorLine < so1 then cursorLine else so1
  clamp_scroll text rectHeight padding lineHeight so2

/-- `TextField._move_my_cursor`: move, then auto-scroll. -/
def move_my_cursor (text : Doc) (cursor : Cursor)
    (rectHeight padding lineHeight scrollOffset : Nat) (direction : Int)
    (jumpWords : Bool) : Cursor × Nat :=
  let c := move_cursor text cursor direction jumpWords
  (c, update_scroll text c rectHeight padding lineHeight scrollOffset)

/-- `TextField._insert_text`: splice `s` into the cursor paragraph, re-wrap
the whole document carrying the cursor, advance the cursor by `len(s)`, and
auto-scroll.  Returns the new document, cursor and scroll offset. -/
def insert_text (measure : PStr → Int) (maxWidth : Int)
    (rectHeight padding lineHeight : Nat) (text : Doc) (cursor : Cursor)
    (scrollOffset : Nat) (s : PStr) : Doc × Cursor × Nat :=
  let paragraph := getPara text cursor.line_index cursor.paragraph_index
  let spliced := paragraph.take cursor.char_index ++ s ++ paragraph.drop cursor.char_index
  let line := getLine text cursor.line_index
  let text1 := text.set cursor.line_index (line.set cursor.paragraph_index spliced)
  let wrapped := wrap_text measure maxWidth text1 cursor
  let newCursor : Cursor :=
    ⟨wrapped.2.line_index, wrapped.2.paragraph_index, wrapped.2.char_index + s.length⟩
  (wrapped.1, newCursor,
    update_scroll wrapped.1 newCursor rectHeight padding lineHeight scrollOffset)

/-- A measurer assigning width 1 to every character, used for concrete
evaluations. -/
def lenMeasure (s : PStr) : Int := (s.length : Int)

/-- The sub-stream of words that the greedy loop, started with buffer
`cur`, keeps (the words that end up inside some emitted paragraph).  A word
is dropped exactly when it is empty and is either absorbed into an empty
buffer (accepted empty test) or rejected out of a non-empty buffer. -/
def kept (measure : PStr → Int) (maxWidth : Int) : PStr → List PStr → List PStr
  | _, [] => []
  | cur, w :: ws =>
    let test := if cur = [] then w else cur ++ ' ' :: w
    if measure test ≤ maxWidth then
      if cur = [] ∧ w = [] then kept measure maxWidth test ws
      else w :: kept measure maxWidth test ws
    else if cur = [] then w :: kept measure maxWidth [] ws
    else if w = [] then kept measure maxWidth w ws
    else w :: kept measure maxWidth w ws

/-- Structural validity of a cursor: the §3 invariants of the spec
(`line_index` in range, `paragraph_index` in range for that line,
`char_index` at most the paragraph length). -/
def validCursor (text : Doc) (c : Cursor) : Prop :=
  c.line_index < text.length
    ∧ c.paragraph_index < (getLine text c.line_index).length
    ∧ c.char_index ≤ (getPara text c.line_index c.paragraph_index).length


/-- Cursor with Python-`int` paragraph and char coordinates, for the states
in which the source stores a NEGATIVE index (reachable when `auto_wrap`
empties a line, see C1).  The line index never goes negative in the runs
covered here and stays `Nat`. -/
structure CursorZ where
  line_index : Nat
  paragraph_index : Int
  char_index : Int
deriving DecidableEq, Repr

/-- `Line.get_line_char_index` over Python ints (the incoming cursor of the
covered runs is structurally valid, so the slice bound is non-negative). -/
def get_line_char_index_int (paragraphs : LineP) (paragraphIndex charIndex : Int) : Int :=
  (((paragraphs.take paragraphIndex.toNat).map (fun p => (p.length : Int) + 1)).sum)
    + charIndex

/-- The scanning loop of `Line.get_paragraph_char_index` over Python ints:
the fallback `len(self.paragraphs) - 1` is `-1` for an empty paragraph
list, exactly as in the source. -/
def gpciAuxZ (n : Nat) (lineCharIndex : Int) : Int → Int → LineP → Int × Int
  | _, _, [] => ((n : Int) - 1, 0)
  | i, cum, p :: ps =>
    if lineCharIndex < cum + ((p.length : Int) + 1) then (i, lineCharIndex - cum)
    else gpciAuxZ n lineCharIndex (i + 1) (cum + ((p.length : Int) + 1)) ps

/-- `Line.get_paragraph_char_index` over Python ints. -/
def get_paragraph_char_index_int (paragraphs : LineP) (lineCharIndex : Int) : Int × Int :=
  gpciAuxZ paragraphs.length lineCharIndex 0 0 paragraphs

/-- `Line.auto_wrap_and_norm_cursor` over Python ints. -/
def auto_wrap_and_norm_cursor_int (measure : PStr → Int) (maxWidth : Int)
    (paragraphs : LineP) (cursor : CursorZ) : LineP × CursorZ :=
  let lineCharIndex :=
    get_line_char_index_int paragraphs cursor.paragraph_index cursor.char_index
  let wrapped := auto_wrap measure maxWidth paragraphs
  let pc := get_paragraph_char_index_int wrapped lineCharIndex
  (wrapped, ⟨cursor.line_index, pc.1, pc.2⟩)

/-- The indexed loop of `TextField._wrap_text` over Python ints. -/
def wrap_text_go_int (measure : PStr → Int) (maxWidth : Int) (cursorLine : Nat) :
    Nat → Doc → CursorZ → Doc × CursorZ
  | _, [], c => ([], c)
  | i, l :: ls, c =>
    if i = cursorLine then
      let lc := auto_wrap_and_norm_cursor_int measure maxWidth l c
      let rest := wrap_text_go_int measure maxWidth cursorLine (i + 1) ls lc.2
      (lc.1 :: rest.1, rest.2)
    else
      let rest := wrap_text_go_int measure maxWidth cursorLine (i + 1) ls c
      (auto_wrap measure maxWidth l :: rest.1, rest.2)

/-- `TextField._wrap_text` over Python ints. -/
def wrap_text_int (measure : PStr → Int) (maxWidth : Int) (text : Doc) (cursor : CursorZ) :
    Doc × CursorZ :=
  wrap_text_go_int measure maxWidth cursor.line_index 0 text cursor

/-- `TextField._get_view_line_pos` over Python ints. -/
def get_view_line_pos_int (text : Doc) (cursor : CursorZ) : Int :=
  (((text.take cursor.line_index).map (fun l => (l.length : Int))).sum)
    + cursor.paragraph_index

/-- `TextField._clamp_scroll` over Python ints. -/
def clamp_scroll_int (text : Doc) (rectHeight padding lineHeight : Nat)
    (scrollOffset : Int) : Int :=
  let vis : Int := (visibleLines rectHeight padding lineHeight : Int)
  let maxScroll : Int := max 0 ((get_num_paragraphs text : Int) - vis)
  max 0 (min scrollOffset maxScroll)

/-- `TextField._update_scroll` over Python ints. -/
def update_scroll_int (text : Doc) (cursor : CursorZ)
    (rectHeight padding lineHeight : Nat) (scrollOffset : Int) : Int :=
  let vis : Int := (visibleLines rectHeight padding lineHeight : Int)
  let cursorLine := get_view_line_pos_int text cursor
  let so1 := if cursorLine ≥ scrollOffset + vis then cursorLine - vis + 1 else scrollOffset
  let so2 := if cursorLine < so1 then cursorLine else so1
  clamp_scroll_int text rectHeight padding lineHeight so2

/-- `TextField._insert_text` over Python ints (the incoming cursor is
structurally valid, so the splice indices are non-negative; the negative
index appears only in the cursor CARRIED OUT of the re-wrap). -/
def insert_text_int (measure : PStr → Int) (maxWidth : Int)
    (rectHeight padding lineHeight : Nat) (text : Doc) (cursor : CursorZ)
    (scrollOffset : Int) (s : PStr) : Doc × CursorZ × Int :=
  let paragraph := getPara text cursor.line_index cursor.paragraph_index.toNat
  let spliced := paragraph.take cursor.char_index.toNat ++ s
    ++ paragraph.drop cursor.char_index.toNat
  let line := getLine text cursor.line_index
  let text1 := text.set cursor.line_index (line.set cursor.paragraph_index.toNat spliced)
  let wrapped := wrap_text_int measure maxWidth text1 cursor
  let newCursor : CursorZ :=
    ⟨wrapped.2.line_index, wrapped.2.paragraph_index,
      wrapped.2.char_index + (s.length : Int)⟩
  (wrapped.1, newCursor,
    update_scroll_int wrapped.1 newCursor rectHeight padding lineHeight scrollOffset)

/-! ## Helper lemmas -/

/-- The scanning loop of `get_paragraph_char_index` inverts the flattened
offset: started at counter `i` and accumulator `cum`, on an offset lying in
paragraph `pi` it returns `(i + pi, ci)`. -/
lemma gpciAux_spec : ∀ (ps : LineP) (pi ci n i cum : Nat),
    pi < ps.length → ci ≤ (ps.getD pi []).length →
    gpciAux n (cum + (((ps.take pi).map (fun p => p.length + 1)).sum + ci)) i cum ps
      = (i + pi, ci) := by
  intro ps
  induction ps with
  | nil => intro pi ci n i cum h _; simp at h
  | cons p ps ih =>
    intro pi ci n i cum hpi hci
    cases pi with
    | zero =>
      simp only [List.getD_cons_zero] at hci
      simp only [List.take_zero, List.map_nil, List.sum_nil, Nat.zero_add, gpciAux]
      rw [if_pos (by omega)]
      simp only [Prod.mk.injEq]
      constructor <;> omega
    | succ pi =>
      simp only [List.getD_cons_succ] at hci
      simp only [List.length_cons, Nat.succ_lt_succ_iff] at hpi
      simp only [List.take_succ_cons, List.map_cons, List.sum_cons, gpciAux]
      rw [if_neg (by omega)]
      have h := ih pi ci n (i + 1) (cum + (p.length + 1)) hpi hci
      have harg : cum + (p.length + 1 + ((ps.take pi).map (fun q => q.length + 1)).sum + ci)
          = cum + (p.length + 1) + (((ps.take pi).map (fun q => q.length + 1)).sum + ci) := by
        omega
      rw [harg, h]
      simp only [Prod.mk.injEq]
      exact ⟨by omega, trivial⟩

/-- The `Nat` scanning loop agrees with the Python-int one on every
non-empty tail (the two can differ only at the empty-list fallback, where
the source yields `-1`); `cum ≤ L` is the loop invariant of the scan. -/
lemma gpciAuxZ_agrees : ∀ (ps : LineP) (n L i cum : Nat), 0 < n → cum ≤ L →
    gpciAuxZ n (L : Int) (i : Int) (cum : Int) ps
      = (((gpciAux n L i cum ps).1 : Int), ((gpciAux n L i cum ps).2 : Int)) := by
  intro ps
  induction ps with
  | nil =>
    intro n L i cum hn _
    simp only [gpciAuxZ, gpciAux, Prod.mk.injEq]
    constructor
    · omega
    · rfl
  | cons p ps ih =>
    intro n L i cum hn hcum
    simp only [gpciAuxZ, gpciAux]
    by_cases h : L < cum + (p.length + 1)
    · rw [if_pos h, if_pos (by omega)]
      simp only [Prod.mk.injEq]
      exact ⟨trivial, by omega⟩
    · rw [if_neg (by omega), if_neg h]
      have h1 : (i : Int) + 1 = ((i + 1 : Nat) : Int) := by push_cast; ring
      have h2 : (cum : Int) + ((p.length : Int) + 1) = ((cum + (p.length + 1) : Nat) : Int) := by
        push_cast; ring
      rw [h1, h2]
      exact ih n L (i + 1) (cum + (p.length + 1)) hn (by omega)

/-- On a NON-empty paragraph list `get_paragraph_char_index` agrees exactly
with the Python-int version: the `Nat` truncation of the source's `-1`
fallback is confined to empty paragraph lists (the state exhibited in the
C10 counterexample), outside the domains of the C2 and C7 theorems. -/
lemma get_paragraph_char_index_int_agrees (paragraphs : LineP) (hne : paragraphs ≠ [])
    (lineCharIndex : Nat) :
    get_paragraph_char_index_int paragraphs (lineCharIndex : Int)
      = (((get_paragraph_char_index paragraphs lineCharIndex).1 : Int),
          ((get_paragraph_char_index paragraphs lineCharIndex).2 : Int)) := by
  have hn : 0 < paragraphs.length := List.length_pos.2 hne
  have h := gpciAuxZ_agrees paragraphs paragraphs.length lineCharIndex 0 0 hn (Nat.zero_le _)
  simpa [get_paragraph_char_index_int, get_paragraph_char_index] using h

/-- Splitting never yields the empty list (Python `split` always returns at
least one piece). -/
lemma splitOnSpace_ne_nil : ∀ s : PStr, splitOnSpace s ≠ [] := by
  intro s
  induction s with
  | nil => simp [splitOnSpace]
  | cons c cs ih =>
    by_cases h : c = ' '
    · simp [splitOnSpace, h]
    · rw [splitOnSpace, if_neg h]
      cases hs : splitOnSpace cs with
      | nil => simp
      | cons w ws => simp

/-- Every piece produced by splitting on spaces is space-free. -/
lemma noSpace_of_mem_splitOnSpace : ∀ (s w : PStr), w ∈ splitOnSpace s → ' ' ∉ w := by
  intro s
  induction s with
  | nil =>
    intro w hw
    rw [splitOnSpace, List.mem_singleton] at hw
    subst hw; simp
  | cons c cs ih =>
    intro w hw
    by_cases h : c = ' '
    · rw [splitOnSpace, if_pos h] at hw
      rcases List.mem_cons.1 hw with rfl | hw
      · simp
      · exact ih w hw
    · rw [splitOnSpace, if_neg h] at hw
      cases hs : splitOnSpace cs with
      | nil => exact absurd hs (splitOnSpace_ne_nil cs)
      | cons v vs =>
        rw [hs] at hw
        rcases List.mem_cons.1 hw with rfl | hw
        · have hv : ' ' ∉ v := ih v (hs ▸ List.mem_cons_self v vs)
          intro hmem
          rcases List.mem_cons.1 hmem with he | hmem
          · exact h he.symm
          · exact hv hmem
        · exact ih w (hs ▸ List.mem_cons_of_mem v hw)

/-- Splitting distributes over a space placed between two pieces. -/
lemma splitOnSpace_append_space : ∀ a b : PStr,
    splitOnSpace (a ++ ' ' :: b) = splitOnSpace a ++ splitOnSpace b := by
  intro a b
  induction a with
  | nil =>
    rw [List.nil_append]
    rw [show splitOnSpace (' ' :: b) = [] :: splitOnSpace b by rw [splitOnSpace, if_pos rfl]]
    rfl
  | cons c cs ih =>
    by_cases h : c = ' '
    · rw [List.cons_append, splitOnSpace, if_pos h, ih, splitOnSpace, if_pos h,
        List.cons_append]
    · rw [List.cons_append, splitOnSpace, if_neg h, ih, splitOnSpace, if_neg h]
      cases hs : splitOnSpace cs with
      | nil => exact absurd hs (splitOnSpace_ne_nil cs)
      | cons v vs => rfl

/-- A space-free string splits to the singleton list holding itself. -/
lemma splitOnSpace_noSpace : ∀ w : PStr, ' ' ∉ w → splitOnSpace w = [w] := by
  intro w
  induction w with
  | nil => intro _; rfl
  | cons c cs ih =>
    intro hw
    have hc : ¬ c = ' ' := fun h => hw (h ▸ List.mem_cons_self c cs)
    have hcs : ' ' ∉ cs := fun h => hw (List.mem_cons_of_mem c h)
    rw [splitOnSpace, if_neg hc, ih hcs]

/-- Splitting the space-join of a non-empty list of pieces recovers the
concatenation of the splits of the pieces. -/
lemma splitOnSpace_joinSpaces : ∀ P : LineP, P ≠ [] →
    splitOnSpace (joinSpaces P) = (P.map splitOnSpace).flatten := by
  intro P
  induction P with
  | nil => intro h; exact absurd rfl h
  | cons p ps ih =>
    intro _
    cases ps with
    | nil => simp [joinSpaces]
    | cons q qs =>
      rw [show joinSpaces (p :: q :: qs) = p ++ ' ' :: joinSpaces (q :: qs) from rfl,
        splitOnSpace_append_space, ih (by simp)]
      simp

/-- Unfolding of the greedy loop on a word. -/
lemma greedy_cons (measure : PStr → Int) (maxW : Int) (acc : List PStr) (cur w : PStr)
    (ws : List PStr) :
    greedy measure maxW acc cur (w :: ws)
      = if measure (if cur = [] then w else cur ++ ' ' :: w) ≤ maxW
          then greedy measure maxW acc (if cur = [] then w else cur ++ ' ' :: w) ws
        else if cur = [] then greedy measure maxW (acc ++ [w]) [] ws
        else greedy measure maxW (acc ++ [cur]) w ws := rfl

/-- Unfolding of `kept` on a word. -/
lemma kept_cons (measure : PStr → Int) (maxW : Int) (cur w : PStr) (ws : List PStr) :
    kept measure maxW cur (w :: ws)
      = if measure (if cur = [] then w else cur ++ ' ' :: w) ≤ maxW then
          if cur = [] ∧ w = [] then
            kept measure maxW (if cur = [] then w else cur ++ ' ' :: w) ws
          else w :: kept measure maxW (if cur = [] then w else cur ++ ' ' :: w) ws
        else if cur = [] then w :: kept measure maxW [] ws
        else if w = [] then kept measure maxW w ws
        else w :: kept measure maxW w ws := rfl

/-- Re-splitting the paragraphs emitted by the greedy loop recovers exactly
the kept words, appended after the words already recorded in `acc` and
`cur`. -/
lemma flatten_split_greedy (measure : PStr → Int) (maxW : Int) :
    ∀ (ws : List PStr) (acc : List PStr) (cur : PStr), (∀ w ∈ ws, ' ' ∉ w) →
      ((greedy measure maxW acc cur ws).map splitOnSpace).flatten
        = (acc.map splitOnSpace).flatten
            ++ (if cur = [] then [] else splitOnSpace cur)
            ++ kept measure maxW cur ws := by
  intro ws
  induction ws with
  | nil =>
    intro acc cur _
    by_cases hc : cur = []
    · rw [greedy, if_pos hc, kept, if_pos hc]
      simp
    · rw [greedy, if_neg hc, kept, if_neg hc]
      simp
  | cons w ws ih =>
    intro acc cur hws
    have hw : ' ' ∉ w := hws w (List.mem_cons_self w ws)
    have hws' : ∀ v ∈ ws, ' ' ∉ v := fun v hv => hws v (List.mem_cons_of_mem w hv)
    rw [greedy_cons, kept_cons]
    by_cases hc : cur = []
    · subst hc
      simp only [reduceIte]
      by_cases hfit : measure w ≤ maxW
      · rw [if_pos hfit, if_pos hfit, ih _ _ hws']
        by_cases hw0 : w = []
        · subst hw0
          simp
        · rw [splitOnSpace_noSpace w hw]
          simp [hw0]
      · rw [if_neg hfit, if_neg hfit, ih _ _ hws']
        rw [List.map_append, List.flatten_append]
        simp [splitOnSpace_noSpace w hw]
    · rw [if_neg hc, if_neg hc]
      have htne : cur ++ ' ' :: w ≠ [] := by simp
      by_cases hfit : measure (cur ++ ' ' :: w) ≤ maxW
      · rw [if_pos hfit, if_pos hfit,
          if_neg (fun h : cur = [] ∧ w = [] => hc h.1), ih _ _ hws',
          if_neg htne, splitOnSpace_append_space, splitOnSpace_noSpace w hw]
        simp [hc]
      · rw [if_neg hfit, if_neg hfit, ih _ _ hws',
          List.map_append, List.flatten_append]
        by_cases hw0 : w = []
        · subst hw0
          simp [hc]
        · rw [splitOnSpace_noSpace w hw]
          simp [hc, hw0]

/-- Joint replay of the greedy loop on its own kept-word stream (for an
append-monotone measurer whose empty string fits): from matching states the
replayed run mimics the original one; from a "lagging" state — the replay
still holding a paragraph `x` that the original run already emitted, because
an empty word was rejected out of it or because `x` alone is over-wide — the
replay catches up and produces the same output. -/
lemma greedy_kept_sim (measure : PStr → Int) (maxW : Int)
    (hmono : ∀ s t, measure s ≤ measure (s ++ t)) (hempty : measure [] ≤ maxW) :
    ∀ ws : List PStr, (∀ w ∈ ws, ' ' ∉ w) →
      (∀ acc cur, greedy measure maxW acc cur (kept measure maxW cur ws)
          = greedy measure maxW acc cur ws)
      ∧ (∀ acc x, x ≠ [] → (∀ y, maxW < measure (x ++ ' ' :: y)) →
          greedy measure maxW acc x (kept measure maxW [] ws)
            = greedy measure maxW (acc ++ [x]) [] ws) := by
  intro ws
  induction ws with
  | nil =>
    intro _
    refine ⟨fun acc cur => by rw [kept], fun acc x hx _ => ?_⟩
    rw [kept, greedy, if_neg hx, greedy, if_pos rfl]
  | cons w ws ih =>
    intro hws
    have hws' : ∀ v ∈ ws, ' ' ∉ v := fun v hv => hws v (List.mem_cons_of_mem w hv)
    obtain ⟨ihM, ihL⟩ := ih hws'
    constructor
    · intro acc cur
      by_cases hc : cur = []
      · subst hc
        rw [kept_cons, greedy_cons]
        simp only [reduceIte, eq_self_iff_true, true_and]
        by_cases hfit : measure w ≤ maxW
        · rw [if_pos hfit, if_pos hfit]
          by_cases hw0 : w = []
          · subst hw0
            rw [if_pos rfl]
            exact ihM acc []
          · rw [if_neg hw0, greedy_cons]
            simp only [reduceIte]
            rw [if_pos hfit]
            exact ihM acc w
        · rw [if_neg hfit, if_neg hfit, greedy_cons]
          simp only [reduceIte]
          rw [if_neg hfit]
          exact ihM (acc ++ [w]) []
      · rw [kept_cons, greedy_cons, if_neg hc, if_neg hc]
        by_cases hfit : measure (cur ++ ' ' :: w) ≤ maxW
        · rw [if_pos hfit, if_pos hfit, if_neg (fun h : cur = [] ∧ w = [] => hc h.1),
            greedy_cons, if_neg hc, if_pos hfit]
          exact ihM acc (cur ++ ' ' :: w)
        · rw [if_neg hfit, if_neg hfit, if_neg hc]
          by_cases hw0 : w = []
          · subst hw0
            rw [if_pos rfl]
            refine ihL acc cur hc fun y => ?_
            have h1 : maxW < measure (cur ++ [' ']) := by
              refine lt_of_not_le fun hle => hfit ?_
              simpa using hle
            have h2 : measure (cur ++ [' ']) ≤ measure ((cur ++ [' ']) ++ y) :=
              hmono (cur ++ [' ']) y
            have h3 : (cur ++ [' ']) ++ y = cur ++ ' ' :: y := by simp
            rw [h3] at h2
            exact lt_of_lt_of_le h1 h2
          · rw [if_neg hw0, greedy_cons, if_neg hc, if_neg hfit, if_neg hc]
            exact ihM (acc ++ [cur]) w
    · intro acc x hx hxy
      rw [kept_cons, greedy_cons]
      simp only [reduceIte, eq_self_iff_true, true_and]
      by_cases hfit : measure w ≤ maxW
      · rw [if_pos hfit, if_pos hfit]
        by_cases hw0 : w = []
        · subst hw0
          rw [if_pos rfl]
          exact ihL acc x hx hxy
        · have hrej : ¬ measure (x ++ ' ' :: w) ≤ maxW := not_le.2 (hxy w)
          rw [if_neg hw0, greedy_cons, if_neg hx, if_neg hrej, if_neg hx]
          exact ihM (acc ++ [x]) w
      · have hw0 : w ≠ [] := fun h => hfit (h ▸ hempty)
        have hrej : ¬ measure (x ++ ' ' :: w) ≤ maxW := not_le.2 (hxy w)
        rw [if_neg hfit, if_neg hfit, greedy_cons, if_neg hx, if_neg hrej, if_neg hx]
        refine ihL (acc ++ [x]) w hw0 fun y => ?_
        refine lt_of_lt_of_le (not_le.1 hfit) ?_
        simpa using hmono w (' ' :: y)

/-- With a measurer exceeding the width on every string, every word is
emitted alone. -/
lemma greedy_all_overwide (measure : PStr → Int) (maxW : Int)
    (hall : ∀ w : PStr, maxW < measure w) :
    ∀ (ws acc : List PStr), greedy measure maxW acc [] ws = acc ++ ws := by
  intro ws
  induction ws with
  | nil => intro acc; rw [greedy, if_pos rfl, List.append_nil]
  | cons w ws ih =>
    intro acc
    rw [greedy_cons]
    simp only [reduceIte]
    rw [if_neg (not_le.2 (hall w)), ih]
    simp

/-- Flattening a list of singletons gives back the list. -/
lemma flatten_map_singleton {α : Type} : ∀ l : List α, (l.map (fun a => [a])).flatten = l := by
  intro l
  induction l with
  | nil => rfl
  | cons a l ih => simp [ih]

/-! ## C1 — wrapping an empty line -/

/-- C1: an empty line does NOT wrap to one empty paragraph.  `auto_wrap` on
a `Line` whose text is empty (paragraphs `[""]`) produces the empty
paragraph sequence, violating the `|paragraphs| >= 1` invariant claimed by
the spec (demonstrated with a unit-width measurer and `max_width = 5`). -/
theorem auto_wrap_empty_line_yields_no_paragraphs :
    auto_wrap lenMeasure 5 [[]] = [] ∧ auto_wrap lenMeasure 5 [[]] ≠ [[]] := by
  decide

/-! ## C2 — offset round trip -/

/-- C2: for every line and every valid position `(paragraph_index,
char_index)` (index in range, character offset at most the paragraph
length), flattening with `get_line_char_index` and unflattening with
`get_paragraph_char_index` returns exactly the original pair. -/
theorem offset_round_trip (paragraphs : LineP) (pi ci : Nat)
    (h1 : pi < paragraphs.length) (h2 : ci ≤ (paragraphs.getD pi []).length) :
    get_paragraph_char_index paragraphs (get_line_char_index paragraphs pi ci) = (pi, ci) := by
  have h := gpciAux_spec paragraphs pi ci paragraphs.length 0 0 h1 h2
  simpa [get_paragraph_char_index, get_line_char_index] using h

/-- Witness for C2 at the line `["ab", "c"]`, position `(1, 1)`. -/
theorem offset_round_trip_witness :
    get_paragraph_char_index [['a','b'], ['c']]
      (get_line_char_index [['a','b'], ['c']] 1 1) = (1, 1) :=
  offset_round_trip [['a','b'], ['c']] 1 1 (by decide) (by decide)

/-! ## C3 — splitting a line -/

/-- C3: `Line.split` on paragraphs `["hello", "world"]` at `(1, 2)` joins
with the EMPTY separator: the left raw text is `"hellowo"` — not the
`"hello wo"` required by the claim — so the virtual wrap-boundary character
counted by `get_line_char_index`/`num_chars` is lost. -/
theorem line_split_drops_wrap_boundary_space :
    line_split [['h','e','l','l','o'], ['w','o','r','l','d']] 1 2
        = (['h','e','l','l','o','w','o'], ['r','l','d'])
      ∧ (line_split [['h','e','l','l','o'], ['w','o','r','l','d']] 1 2).1
        ≠ ['h','e','l','l','o',' ','w','o'] := by
  decide

/-! ## C4 — cursor after a manual newline -/

/-- C4: `_create_newline` splits the text correctly but never touches the
cursor: after splitting `["ab"]` at `(0, 0, 1)` the cursor is still
`(0, 0, 1)`, not the `(1, 0, 0)` (start of the right line) that the claim
requires. -/
theorem create_newline_leaves_cursor_unchanged :
    create_newline [[['a','b']]] ⟨0, 0, 1⟩ = ([[['a']], [['b']]], ⟨0, 0, 1⟩)
      ∧ (create_newline [[['a','b']]] ⟨0, 0, 1⟩).2 ≠ ⟨1, 0, 0⟩ := by
  decide

/-! ## C5 — word-wise movement -/

/-- C5: `_move_cursor` computes a new character index only under
`if not jump_words`, so word-wise movement never changes the cursor — even
though the (unreachable) word-jump branch of `_next_char_index` would move
the cursor at `("ab cd", 0)` forward to the space at index 2. -/
theorem move_cursor_jump_words_is_noop :
    (∀ (text : Doc) (cursor : Cursor) (direction : Int),
        move_cursor text cursor direction true = cursor)
      ∧ move_cursor [[['a','b',' ','c','d']]] ⟨0, 0, 0⟩ 1 true = ⟨0, 0, 0⟩
      ∧ next_char_index ['a','b',' ','c','d'] 0 1 true = 2 :=
  ⟨fun _ _ _ => by simp [move_cursor], by decide, by decide⟩

/-! ## C7 — cursor carry-through on insertion -/

/-- C7 counterexample: in the spec's scenario (unit-width measurer,
`max_width = 3`, line `["abc", "def"]`, cursor at `(0, 0, 3)`, inserting
`"d"`), the final cursor is `(0, 0, 4)`, not the `(0, 0, 3)` stated by the
claim — index 3 would sit BEFORE the freshly inserted character. -/
theorem insert_text_cursor_counterexample :
    (insert_text lenMeasure 3 100 5 20 [[['a','b','c'], ['d','e','f']]] ⟨0, 0, 3⟩ 0
        ['d']).2.1 = ⟨0, 0, 4⟩
      ∧ (insert_text lenMeasure 3 100 5 20 [[['a','b','c'], ['d','e','f']]] ⟨0, 0, 3⟩ 0
        ['d']).2.1 ≠ ⟨0, 0, 3⟩ := by
  decide

/-- C7 amended: in the same scenario the document wraps to
`["abcd", "def"]` and the cursor lands at paragraph 0, char index 4 — the
position immediately after the inserted `"d"`, still inside the first
paragraph and not inside `"def"`. -/
theorem insert_text_cursor_tracks_insertion :
    insert_text lenMeasure 3 100 5 20 [[['a','b','c'], ['d','e','f']]] ⟨0, 0, 3⟩ 0 ['d']
      = ([[['a','b','c','d'], ['d','e','f']]], ⟨0, 0, 4⟩, 0) := by
  decide

/-! ## C9 — no-overflow invariant of the wrapper -/

/-- Invariant of the greedy loop: if every already emitted paragraph and the
current buffer fit the width or are single (space-free) words, every
paragraph of the final output does too. -/
lemma greedy_no_overflow (measure : PStr → Int) (maxW : Int) :
    ∀ (ws : List PStr) (acc : List PStr) (cur : PStr),
      (∀ w ∈ ws, ' ' ∉ w) →
      (∀ p ∈ acc, measure p ≤ maxW ∨ ' ' ∉ p) →
      (cur = [] ∨ measure cur ≤ maxW ∨ ' ' ∉ cur) →
      ∀ p ∈ greedy measure maxW acc cur ws, measure p ≤ maxW ∨ ' ' ∉ p := by
  intro ws
  induction ws with
  | nil =>
    intro acc cur _ hacc hcur p hp
    by_cases h : cur = []
    · rw [greedy, if_pos h] at hp
      exact hacc p hp
    · rw [greedy, if_neg h] at hp
      rcases List.mem_append.1 hp with hp | hp
      · exact hacc p hp
      · rcases List.mem_singleton.1 hp with rfl
        rcases hcur with h' | h'
        · exact absurd h' h
        · exact h'
  | cons w ws ih =>
    intro acc cur hws hacc hcur p hp
    have hw : ' ' ∉ w := hws w (List.mem_cons_self w ws)
    have hws' : ∀ v ∈ ws, ' ' ∉ v := fun v hv => hws v (List.mem_cons_of_mem w hv)
    simp only [greedy] at hp
    by_cases hfit : measure (if cur = [] then w else cur ++ ' ' :: w) ≤ maxW
    · rw [if_pos hfit] at hp
      exact ih acc _ hws' hacc (Or.inr (Or.inl hfit)) p hp
    · rw [if_neg hfit] at hp
      by_cases hc : cur = []
      · rw [if_pos hc] at hp
        refine ih _ [] hws' ?_ (Or.inl rfl) p hp
        intro q hq
        rcases List.mem_append.1 hq with hq | hq
        · exact hacc q hq
        · rcases List.mem_singleton.1 hq with rfl
          exact Or.inr hw
      · rw [if_neg hc] at hp
        refine ih _ w hws' ?_ (Or.inr (Or.inr hw)) p hp
        intro q hq
        rcases List.mem_append.1 hq with hq | hq
        · exact hacc q hq
        · rcases List.mem_singleton.1 hq with rfl
          rcases hcur with h' | h'
          · exact absurd h' hc
          · exact h'

/-- C9: for every word sequence (space-free tokens), every positive
`max_width` and every measurer, each paragraph produced by the wrapper
either fits within `max_width` or is a single unsplittable word. -/
theorem wrap_words_no_overflow (measure : PStr → Int) (maxW : Int)
    (hpos : 0 < maxW) (ws : List PStr) (hws : ∀ w ∈ ws, ' ' ∉ w) :
    ∀ p ∈ wrap_words measure maxW ws, measure p ≤ maxW ∨ ' ' ∉ p :=
  greedy_no_overflow measure maxW ws [] [] hws (by simp) (Or.inl rfl)

/-- Witness for C9: wrapping the words `["a", "bbbb"]` at width 2 emits the
over-wide single word `"bbbb"`, which indeed contains no space. -/
theorem wrap_words_no_overflow_witness :
    lenMeasure ['b','b','b','b'] ≤ 2 ∨ ' ' ∉ ['b','b','b','b'] :=
  wrap_words_no_overflow lenMeasure 2 (by decide) [['a'], ['b','b','b','b']]
    (by decide) ['b','b','b','b'] (by decide)

/-! ## C8 — idempotence of wrapping -/

/-- C8: for every `Line`, every positive `max_width` and an (append-)
monotone measurer — true of pixel-width measurement — re-running
`auto_wrap` on its own output (re-joining the produced paragraphs with
single spaces and re-running the greedy algorithm) reproduces exactly the
same paragraph sequence. -/
theorem auto_wrap_idempotent (measure : PStr → Int) (maxW : Int)
    (hpos : 0 < maxW) (hmono : ∀ s t, measure s ≤ measure (s ++ t))
    (paragraphs : LineP) :
    auto_wrap measure maxW (auto_wrap measure maxW paragraphs)
      = auto_wrap measure maxW paragraphs := by
  by_cases hempty : measure [] ≤ maxW
  · have hW1 : ∀ w ∈ splitOnSpace (joinSpaces paragraphs), ' ' ∉ w :=
      fun w hw => noSpace_of_mem_splitOnSpace _ w hw
    by_cases hP : auto_wrap measure maxW paragraphs = []
    · rw [hP]
      show wrap_words measure maxW (splitOnSpace (joinSpaces [])) = []
      rw [show joinSpaces [] = [] from rfl, show splitOnSpace [] = [[]] from rfl,
        wrap_words, greedy_cons]
      simp only [reduceIte]
      rw [if_pos hempty, greedy, if_pos rfl]
    · have hsplit := splitOnSpace_joinSpaces _ hP
      have hflat := flatten_split_greedy measure maxW
        (splitOnSpace (joinSpaces paragraphs)) [] [] hW1
      have hflat' : ((auto_wrap measure maxW paragraphs).map splitOnSpace).flatten
          = kept measure maxW [] (splitOnSpace (joinSpaces paragraphs)) := by
        simpa [auto_wrap, wrap_words] using hflat
      show wrap_words measure maxW
          (splitOnSpace (joinSpaces (auto_wrap measure maxW paragraphs))) = _
      rw [hsplit, hflat', wrap_words]
      exact (greedy_kept_sim measure maxW hmono hempty _ hW1).1 [] []
  · have hall : ∀ w : PStr, maxW < measure w := fun w =>
      lt_of_lt_of_le (not_le.1 hempty) (by simpa using hmono [] w)
    have hW1ne : splitOnSpace (joinSpaces paragraphs) ≠ [] := splitOnSpace_ne_nil _
    have hP1 : auto_wrap measure maxW paragraphs = splitOnSpace (joinSpaces paragraphs) := by
      rw [auto_wrap, wrap_words, greedy_all_overwide measure maxW hall]
      simp
    rw [hP1]
    have : (splitOnSpace (joinSpaces paragraphs)).map splitOnSpace
        = (splitOnSpace (joinSpaces paragraphs)).map (fun w => [w]) :=
      List.map_congr_left fun w hw => splitOnSpace_noSpace w (noSpace_of_mem_splitOnSpace _ w hw)
    rw [auto_wrap, wrap_words, splitOnSpace_joinSpaces _ hW1ne, this,
      flatten_map_singleton, greedy_all_overwide measure maxW hall]
    simp

/-- Witness for C8: re-wrapping the already wrapped line `"ab c"` at width
2 with the unit-width measurer changes nothing. -/
theorem auto_wrap_idempotent_witness :
    auto_wrap lenMeasure 2 (auto_wrap lenMeasure 2 [['a','b',' ','c']])
      = auto_wrap lenMeasure 2 [['a','b',' ','c']] :=
  auto_wrap_idempotent lenMeasure 2 (by decide)
    (fun s t => by simp [lenMeasure]) [['a','b',' ','c']]

/-! ## C6 — backward movement across a line boundary -/

/-- C6 counterexample: in the document `[["aa", "bb"], ["cc"]]` (previous
line has MORE paragraphs than the current one), moving back from `(1, 0, 0)`
lands at `(0, 0, 2)` — the end of the previous line's FIRST paragraph — not
at `(0, 1, 2)`, the end of its last paragraph as the claim requires: the
source compares the wrapped paragraph index against the CURRENT line's
paragraph count. -/
theorem move_cursor_back_counterexample :
    move_cursor [[['a','a'], ['b','b']], [['c','c']]] ⟨1, 0, 0⟩ (-1) false = ⟨0, 0, 2⟩
      ∧ move_cursor [[['a','a'], ['b','b']], [['c','c']]] ⟨1, 0, 0⟩ (-1) false
        ≠ ⟨0, 1, 2⟩ := by
  decide

/-- C6 amended: on a structurally valid document, character-wise backward
movement from `(li, 0, 0)` with `li > 0` lands on line `li - 1` at the end
of paragraph `p`, where `p` is the LAST paragraph of line `li - 1` when that
line has at most as many paragraphs as line `li`, and paragraph 0 otherwise
(the source checks the wrapped index against the current line's count). -/
theorem move_cursor_back_from_line_start (text : Doc) (li : Nat)
    (hpos : 0 < li) (hlt : li < text.length)
    (hne : ∀ l ∈ text, l ≠ []) :
    move_cursor text ⟨li, 0, 0⟩ (-1) false
      = ⟨li - 1,
          if (getLine text li).length < (getLine text (li - 1)).length then 0
          else (getLine text (li - 1)).length - 1,
          (getPara text (li - 1)
            (if (getLine text li).length < (getLine text (li - 1)).length then 0
             else (getLine text (li - 1)).length - 1)).length⟩ := by
  have hn : next_char_index (getPara text li 0) 0 (-1) false = -1 := by
    simp [next_char_index]
  have hlin : (((li : Nat) : Int) + -1).toNat = li - 1 := by omega
  simp only [move_cursor, hn, Nat.cast_zero, zero_add]
  rw [if_pos (show ¬false = true by simp)]
  rw [if_pos (Or.inl (show (-1 : Int) < 0 by norm_num))]
  rw [if_pos (Or.inl (show (-1 : Int) < 0 by norm_num))]
  rw [if_neg (show ¬((li : Int) + -1 < 0 ∨ (li : Int) + -1 ≥ (text.length : Int)) by omega)]
  rw [if_pos (show (-1 : Int) < 0 by norm_num)]
  rw [hlin]
  rw [if_neg (show ¬(-1 : Int) > ((getPara text li 0).length : Int) by omega)]
  rw [if_pos (show (-1 : Int) < 0 by norm_num)]
  by_cases h5 : (getLine text li).length < (getLine text (li - 1)).length
  · rw [if_pos (show ((getLine text (li - 1)).length : Int) - 1
        ≥ ((getLine text li).length : Int) by omega)]
    rw [if_pos h5]
    simp
  · rw [if_neg (show ¬(((getLine text (li - 1)).length : Int) - 1
        ≥ ((getLine text li).length : Int)) by omega)]
    rw [if_neg h5]
    have h6 : (((getLine text (li - 1)).length : Int) - 1).toNat
        = (getLine text (li - 1)).length - 1 := by omega
    rw [h6]
    simp

/-- Witness for the amended C6 at a document whose previous line has a
single paragraph `"aa"`. -/
theorem move_cursor_back_from_line_start_witness :
    move_cursor [[['a','a']], [['c','c']]] ⟨1, 0, 0⟩ (-1) false = ⟨0, 0, 2⟩ :=
  (move_cursor_back_from_line_start [[['a','a']], [['c','c']]] 1 (by decide) (by decide)
    (by decide)).trans (by decide)

/-! ## C10 — auto-scroll and cursor visibility -/

/-- C10 counterexample: a completed `_insert_text` inside the claim's
domain after which the cursor is NOT visible.  The document `[Line("")]`
is structurally valid, the cursor `(0, 0, 0)` is valid and the starting
scroll offset 0 is in range; inserting the printable character `" "`
completes, but the re-wrap empties the line (the C1 defect), the carried
cursor becomes `(0, -1, 1)` (the source's `len(paragraphs) - 1` fallback),
its view row is `-1`, and the clamped scroll offset is `0` — so
`scroll_offset ≤ r` is FALSE after the completed insert (computed in the
Python-int model `insert_text_int`, faithful to the source on this run). -/
theorem insert_text_scroll_counterexample :
    (insert_text_int lenMeasure 5 30 5 20 [[[]]] ⟨0, 0, 0⟩ 0 [' ']).1 = [[]]
      ∧ (insert_text_int lenMeasure 5 30 5 20 [[[]]] ⟨0, 0, 0⟩ 0 [' ']).2.1 = ⟨0, -1, 1⟩
      ∧ (insert_text_int lenMeasure 5 30 5 20 [[[]]] ⟨0, 0, 0⟩ 0 [' ']).2.2 = 0
      ∧ ¬ ((insert_text_int lenMeasure 5 30 5 20 [[[]]] ⟨0, 0, 0⟩ 0 [' ']).2.2
            ≤ get_view_line_pos_int
                (insert_text_int lenMeasure 5 30 5 20 [[[]]] ⟨0, 0, 0⟩ 0 [' ']).1
                (insert_text_int lenMeasure 5 30 5 20 [[[]]] ⟨0, 0, 0⟩ 0 [' ']).2.1) := by
  decide

/-- A line looked up at an in-range index of a structurally valid document
is non-empty. -/
lemma length_getLine_pos (text : Doc) (hne : ∀ l ∈ text, l ≠ []) (i : Nat)
    (h : i < text.length) : 0 < (getLine text i).length := by
  rw [getLine, List.getD_eq_getElem _ _ h]
  exact List.length_pos.2 (hne _ (List.getElem_mem h))

/-- The view row of a structurally valid cursor is strictly below the total
number of rendered rows. -/
lemma get_view_line_pos_lt (text : Doc) (c : Cursor)
    (h1 : c.line_index < text.length)
    (h2 : c.paragraph_index < (getLine text c.line_index).length) :
    get_view_line_pos text c < get_num_paragraphs text := by
  conv_rhs => rw [get_num_paragraphs, ← List.take_append_drop c.line_index text]
  rw [List.map_append, List.sum_append]
  have hdrop : text.drop c.line_index
      = getLine text c.line_index :: text.drop (c.line_index + 1) := by
    rw [getLine, List.getD_eq_getElem _ _ h1]
    exact List.drop_eq_getElem_cons h1
  rw [get_view_line_pos, hdrop, List.map_cons, List.sum_cons]
  omega

/-- `_update_scroll` always scrolls the cursor row into the window: for any
starting offset, the resulting offset satisfies
`offset ≤ row < offset + visible_lines` whenever the cursor row exists. -/
lemma update_scroll_spec (text : Doc) (c : Cursor) (rh pad lh so : Nat)
    (h : get_view_line_pos text c < get_num_paragraphs text) :
    update_scroll text c rh pad lh so ≤ get_view_line_pos text c
      ∧ get_view_line_pos text c
        < update_scroll text c rh pad lh so + visibleLines rh pad lh := by
  have hv : 1 ≤ visibleLines rh pad lh := le_max_left 1 _
  simp only [update_scroll, clamp_scroll]
  split_ifs <;> omega

/-- Character-wise and word-wise movement preserve the §3 cursor
invariants on structurally valid documents. -/
lemma move_cursor_valid (text : Doc) (c : Cursor) (d : Int) (jw : Bool)
    (hne : ∀ l ∈ text, l ≠ []) (hv : validCursor text c) :
    validCursor text (move_cursor text c d jw) := by
  obtain ⟨hv1, hv2, hv3⟩ := hv
  cases jw with
  | true =>
    rw [move_cursor, if_neg (by simp)]
    exact ⟨hv1, hv2, hv3⟩
  | false =>
    have hn : next_char_index (getPara text c.line_index c.paragraph_index)
        c.char_index d false = (c.char_index : Int) + d := by
      simp [next_char_index]
    simp only [move_cursor]
    rw [if_pos (show ¬false = true by simp), hn]
    by_cases h1 : (c.char_index : Int) + d < 0
      ∨ (c.char_index : Int) + d > ((getPara text c.line_index c.paragraph_index).length : Int)
    · rw [if_pos h1]
      by_cases h2 : (c.paragraph_index : Int) + d < 0
        ∨ (c.paragraph_index : Int) + d ≥ ((getLine text c.line_index).length : Int)
      · rw [if_pos h2]
        by_cases h3 : (c.line_index : Int) + d < 0
          ∨ (c.line_index : Int) + d ≥ (text.length : Int)
        · rw [if_pos h3]
          exact ⟨hv1, hv2, hv3⟩
        · rw [if_neg h3]
          have hlt : ((c.line_index : Int) + d).toNat < text.length := by omega
          have hnewpos : 0 < (getLine text ((c.line_index : Int) + d).toNat).length :=
            length_getLine_pos text hne _ hlt
          have hcurpos : 0 < (getLine text c.line_index).length :=
            length_getLine_pos text hne _ hv1
          refine ⟨hlt, ?_, ?_⟩
          · dsimp only
            split_ifs <;> omega
          · dsimp only
            split_ifs <;> omega
      · rw [if_neg h2]
        refine ⟨hv1, ?_, ?_⟩
        · dsimp only
          omega
        · dsimp only
          split_ifs <;> omega
    · rw [if_neg h1]
      refine ⟨hv1, hv2, ?_⟩
      dsimp only
      omega

/-- C10 amended: after a completed `_move_my_cursor` on a structurally
valid document with a valid cursor and an in-range starting scroll offset,
and after a completed `_insert_text` whose re-wrapped document leaves the
carried cursor structurally valid, the cursor's view row `r` satisfies
`scroll_offset ≤ r < scroll_offset + visible_lines`.  The extra premise on
the insertion is forced by the counterexample above: when the re-wrap
empties the cursor's line (the C1 defect), the source's view row is `-1`
and the invariant fails. -/
theorem auto_scroll_keeps_cursor_visible (measure : PStr → Int) (maxW : Int)
    (rectHeight padding lineHeight : Nat) (text : Doc) (cursor : Cursor)
    (scrollOffset : Nat) (s : PStr) (direction : Int) (jumpWords : Bool)
    (hso : scrollOffset
      ≤ max 0 (get_num_paragraphs text - visibleLines rectHeight padding lineHeight))
    (hne : ∀ l ∈ text, l ≠ []) (hv : validCursor text cursor)
    (hins : validCursor
      (insert_text measure maxW rectHeight padding lineHeight text cursor scrollOffset s).1
      (insert_text measure maxW rectHeight padding lineHeight text cursor scrollOffset s).2.1) :
    ((insert_text measure maxW rectHeight padding lineHeight text cursor scrollOffset s).2.2
        ≤ get_view_line_pos
            (insert_text measure maxW rectHeight padding lineHeight text cursor scrollOffset s).1
            (insert_text measure maxW rectHeight padding lineHeight text cursor scrollOffset s).2.1
      ∧ get_view_line_pos
            (insert_text measure maxW rectHeight padding lineHeight text cursor scrollOffset s).1
            (insert_text measure maxW rectHeight padding lineHeight text cursor scrollOffset s).2.1
        < (insert_text measure maxW rectHeight padding lineHeight text cursor scrollOffset s).2.2
            + visibleLines rectHeight padding lineHeight)
    ∧ ((move_my_cursor text cursor rectHeight padding lineHeight scrollOffset
          direction jumpWords).2
        ≤ get_view_line_pos text
            (move_my_cursor text cursor rectHeight padding lineHeight scrollOffset
              direction jumpWords).1
      ∧ get_view_line_pos text
            (move_my_cursor text cursor rectHeight padding lineHeight scrollOffset
              direction jumpWords).1
        < (move_my_cursor text cursor rectHeight padding lineHeight scrollOffset
              direction jumpWords).2
            + visibleLines rectHeight padding lineHeight) := by
  constructor
  · exact update_scroll_spec _ _ rectHeight padding lineHeight scrollOffset
      (get_view_line_pos_lt _ _ hins.1 hins.2.1)
  · have hmv := move_cursor_valid text cursor direction jumpWords hne hv
    exact update_scroll_spec _ _ rectHeight padding lineHeight scrollOffset
      (get_view_line_pos_lt _ _ hmv.1 hmv.2.1)

/-- Witness for C10: document `["a", "b"]`, cursor at the start of the
second line, inserting `"x"` and moving left, with a 30px high field,
padding 5 and line height 20. -/
theorem auto_scroll_keeps_cursor_visible_witness :
    ((insert_text lenMeasure 5 30 5 20 [[['a']], [['b']]] ⟨1, 0, 0⟩ 0 ['x']).2.2
        ≤ get_view_line_pos
            (insert_text lenMeasure 5 30 5 20 [[['a']], [['b']]] ⟨1, 0, 0⟩ 0 ['x']).1
            (insert_text lenMeasure 5 30 5 20 [[['a']], [['b']]] ⟨1, 0, 0⟩ 0 ['x']).2.1
      ∧ get_view_line_pos
            (insert_text lenMeasure 5 30 5 20 [[['a']], [['b']]] ⟨1, 0, 0⟩ 0 ['x']).1
            (insert_text lenMeasure 5 30 5 20 [[['a']], [['b']]] ⟨1, 0, 0⟩ 0 ['x']).2.1
        < (insert_text lenMeasure 5 30 5 20 [[['a']], [['b']]] ⟨1, 0, 0⟩ 0 ['x']).2.2
            + visibleLines 30 5 20)
    ∧ ((move_my_cursor [[['a']], [['b']]] ⟨1, 0, 0⟩ 30 5 20 0 (-1) false).2
        ≤ get_view_line_pos [[['a']], [['b']]]
            (move_my_cursor [[['a']], [['b']]] ⟨1, 0, 0⟩ 30 5 20 0 (-1) false).1
      ∧ get_view_line_pos [[['a']], [['b']]]
            (move_my_cursor [[['a']], [['b']]] ⟨1, 0, 0⟩ 30 5 20 0 (-1) false).1
        < (move_my_cursor [[['a']], [['b']]] ⟨1, 0, 0⟩ 30 5 20 0 (-1) false).2
            + visibleLines 30 5 20) :=
  auto_scroll_keeps_cursor_visible lenMeasure 5 30 5 20 [[['a']], [['b']]] ⟨1, 0, 0⟩ 0
    ['x'] (-1) false (by decide) (by decide) ⟨by decide, by decide, by decide⟩
    ⟨by decide, by decide, by decide⟩

end PengUi
